import Mathlib

/-!
Shallow embedding of the OptiSkane transit-routing backend
(`src/backend.py`, `src/utils.py`) and proofs about the claims of its
specification.

Modelling conventions:
* Python strings are modelled as `String` (identifiers) or `List Char`
  (when character-level slicing matters, as in `utils.py`).
* Python dictionaries whose insertion order or in-place mutation matters
  are modelled as association lists `List (κ × ν)`; dictionaries that are
  only ever read are modelled as total functions.
* Python exceptions (`KeyError`, `IndexError`, `ValueError`) are modelled
  by `Option`: `none` means the Python code raises.
* All times are integers (seconds); Python's floats only ever enter through
  walk times, and every property at stake is purely order-theoretic.
-/

abbrev Stop := String
abbrev Trip := String
abbrev Rid := Nat
abbrev Time := Int

/-! ## `src/utils.py`: time-string conversions (claim C9)

Python strings are modelled as `List Char`.  `pyInt` models `int(...)`
applied to a string of decimal digits (the only way the code uses it). -/

/-- Model of Python `int(s)` on a string of decimal digits. -/
def pyInt (s : List Char) : Nat :=
  s.foldl (fun a c => 10 * a + (c.toNat - 48)) 0

/-- Model of Python `str(n)` for a natural number. -/
def natStr (n : Nat) : List Char :=
  Nat.toDigits 10 n

/-- Model of Python `l[-2:]` on a list of characters. -/
def lastTwo (l : List Char) : List Char :=
  l.drop (l.length - 2)

/-- `str_to_seconds` from `src/utils.py`:
`int(s[:2]) * 3600 + int(s[3:5]) * 60 + int(s[6:8])`. -/
def str_to_seconds (s : List Char) : Nat :=
  pyInt (s.take 2) * 3600 + pyInt ((s.drop 3).take 2) * 60 + pyInt ((s.drop 6).take 2)

/-- `seconds_to_str` from `src/utils.py`.  Note that the Python code parses
its own intermediate strings back with `int(...)` (`int(h)`, `int(m)`),
which the model mirrors with `pyInt`. -/
def seconds_to_str (n : Nat) : List Char :=
  let h := lastTwo ('0' :: natStr (n / 3600))
  let hN := pyInt h
  let m := lastTwo ('0' :: natStr ((n - hN * 3600) / 60))
  let mN := pyInt m
  let s := lastTwo ('0' :: natStr (n - hN * 3600 - mN * 60))
  h ++ (':' :: (m ++ (':' :: s)))

/-- Two-digit rendering `("0" + str(n))[-2:]` used to build `HH:MM:SS`
strings. -/
def twoDigits (n : Nat) : List Char :=
  lastTwo ('0' :: natStr n)

/-- A time string of the form `HH:MM:SS` built from numeric components. -/
def hmsStr (h m s : Nat) : List Char :=
  twoDigits h ++ (':' :: (twoDigits m ++ (':' :: twoDigits s)))

theorem twoDigits_spec : ∀ n < 100, (twoDigits n).length = 2 ∧ pyInt (twoDigits n) = n := by
  decide

theorem take_two_of_hms (h m s : Nat) (hh : h < 100) :
    (hmsStr h m s).take 2 = twoDigits h := by
  have hl : (twoDigits h).length = 2 := (twoDigits_spec h hh).1
  unfold hmsStr
  rw [← hl, List.take_left]

theorem drop_three_of_hms (h m s : Nat) (hh : h < 100) :
    (hmsStr h m s).drop 3 = twoDigits m ++ (':' :: twoDigits s) := by
  have hl : (twoDigits h).length = 2 := (twoDigits_spec h hh).1
  unfold hmsStr
  have e : twoDigits h ++ (':' :: (twoDigits m ++ (':' :: twoDigits s)))
      = (twoDigits h ++ [':']) ++ (twoDigits m ++ (':' :: twoDigits s)) := by
    simp
  rw [e]
  have hl3 : (twoDigits h ++ [':']).length = 3 := by simp [hl]
  rw [← hl3, List.drop_left]

theorem drop_six_of_hms (h m s : Nat) (hh : h < 100) (hm : m < 100) :
    (hmsStr h m s).drop 6 = twoDigits s := by
  have hlh : (twoDigits h).length = 2 := (twoDigits_spec h hh).1
  have hlm : (twoDigits m).length = 2 := (twoDigits_spec m hm).1
  unfold hmsStr
  have e : twoDigits h ++ (':' :: (twoDigits m ++ (':' :: twoDigits s)))
      = ((twoDigits h ++ [':']) ++ (twoDigits m ++ [':'])) ++ twoDigits s := by
    simp
  rw [e]
  have hl6 : ((twoDigits h ++ [':']) ++ (twoDigits m ++ [':'])).length = 6 := by
    simp [hlh, hlm]
  rw [← hl6, List.drop_left]

theorem str_to_seconds_hms (h m s : Nat) (hh : h < 100) (hm : m < 100) (hs : s < 100) :
    str_to_seconds (hmsStr h m s) = h * 3600 + m * 60 + s := by
  unfold str_to_seconds
  rw [take_two_of_hms h m s hh, drop_three_of_hms h m s hh, drop_six_of_hms h m s hh hm]
  have hlm : (twoDigits m).length = 2 := (twoDigits_spec m hm).1
  have h1 : (twoDigits m ++ (':' :: twoDigits s)).take 2 = twoDigits m := by
    rw [← hlm, List.take_left]
  have h2 : (twoDigits s).take 2 = twoDigits s := by
    rw [← (twoDigits_spec s hs).1, List.take_length]
  rw [h1, h2, (twoDigits_spec h hh).2, (twoDigits_spec m hm).2, (twoDigits_spec s hs).2]

theorem seconds_to_str_eq (h m s : Nat) (hh : h < 100) (hm : m ≤ 59) (hs : s ≤ 59) :
    seconds_to_str (h * 3600 + m * 60 + s) = hmsStr h m s := by
  have hN : pyInt (lastTwo ('0' :: natStr h)) = h := (twoDigits_spec h hh).2
  have hM : pyInt (lastTwo ('0' :: natStr m)) = m := (twoDigits_spec m (by omega)).2
  dsimp only [seconds_to_str]
  rw [show (h * 3600 + m * 60 + s) / 3600 = h by omega]
  rw [hN]
  rw [show h * 3600 + m * 60 + s - h * 3600 = m * 60 + s by omega]
  rw [show (m * 60 + s) / 60 = m by omega]
  rw [hM]
  rw [show m * 60 + s - m * 60 = s by omega]
  rfl

/-- C9: for every time string `t` of the form `HH:MM:SS` with
`0 ≤ HH ≤ 47`, `0 ≤ MM ≤ 59`, `0 ≤ SS ≤ 59`,
`seconds_to_str (str_to_seconds t) = t`. -/
theorem seconds_to_str_str_to_seconds (h m s : Nat)
    (hh : h ≤ 47) (hm : m ≤ 59) (hs : s ≤ 59) :
    seconds_to_str (str_to_seconds (hmsStr h m s)) = hmsStr h m s := by
  rw [str_to_seconds_hms h m s (by omega) (by omega) (by omega)]
  exact seconds_to_str_eq h m s (by omega) hm hs

/-- Witness for C9 at the concrete time `25:03:59`. -/
theorem seconds_to_str_str_to_seconds_witness :
    seconds_to_str (str_to_seconds (hmsStr 25 3 59)) = hmsStr 25 3 59 :=
  seconds_to_str_str_to_seconds 25 3 59 (by decide) (by decide) (by decide)

/-! ## `backend.py` `_update_realtime_data` (claims C1, C2, C3)

The patcher's in-memory maps, as built by `_generate_data_mappings`:
`route_stop_sq_to_dep_times_map` is keyed by `(rid, stop_sequence)` pairs,
the others by `trip_id` / `stop_id`.  Python dictionaries are untyped, so
the key type of the route map is modelled as `Rid ⊕ (Rid × Nat)`: the
builder only ever creates `Sum.inr (rid, stop_sq)` keys, while line 352 of
the source looks up the bare `rid` (`Sum.inl`). -/

abbrev RKey := Sum Rid (Rid × Nat)

/-- Python `d[k]` on a dict: `none` models `KeyError`. -/
def alookup {κ ν : Type} [DecidableEq κ] (k : κ) : List (κ × ν) → Option ν
  | [] => none
  | e :: rest => if e.1 = k then some e.2 else alookup k rest

/-- Python `d[k] = v` on a dict whose key `k` is already present. -/
def aset {κ ν : Type} [DecidableEq κ] (k : κ) (v : ν) : List (κ × ν) → List (κ × ν)
  | [] => []
  | e :: rest => if e.1 = k then (k, v) :: rest else e :: aset k v rest

/-- Python `l[i] = v` on a list: `none` models `IndexError`. -/
def pySet {α : Type} (l : List α) (i : Nat) (a : α) : Option (List α) :=
  if i < l.length then some (l.set i a) else none

/-- Python `l.index(a)`: `none` models `ValueError`. -/
def pyListIndex {α : Type} [DecidableEq α] (a : α) : List α → Option Nat
  | [] => none
  | x :: rest => if x = a then some 0 else (pyListIndex a rest).map (· + 1)

/-- One entry of `tripUpdate.stopTimeUpdate`, with epoch times as received. -/
structure StopTimeUpdate where
  stopId : Stop
  stopSequence : Nat
  arrivalEpoch : Time
  departureEpoch : Time
deriving DecidableEq, Repr

/-- One `tripUpdate` entity of a realtime batch. -/
structure TripUpdate where
  tripId : Trip
  stopTimeUpdates : List StopTimeUpdate
deriving DecidableEq, Repr

/-- The mutable index state touched by `_update_realtime_data`. -/
structure RTData where
  route_stop_sq_to_dep_times : List (RKey × List Time)
  trip_to_arr_times : List (Trip × List Time)
  trip_to_dep_times : List (Trip × List Time)
  stop_to_trips : List (Stop × List Trip)
  stop_to_dep_times : List (Stop × List Time)
  trip_to_route : List (Trip × Rid)
deriving DecidableEq, Repr

/-- Lines 346–355 of `backend.py`, for one stop-time update: extract the
times (minus local-midnight epoch `t0`) and perform the four in-place
assignments in source order.  `none` models an uncaught Python exception
(there is no `try`/`except` in `_update_realtime_data`). -/
def applyStopUpdate (d : RTData) (t0 : Time) (tripId : Trip) (u : StopTimeUpdate) :
    Option RTData := do
  let newArrival := u.arrivalEpoch - t0
  let newDeparture := u.departureEpoch - t0
  -- line 352: route_stop_sq_to_dep_times_map[trip_to_route_map[trip_id]][stop_sq] = new_departure
  let rid ← alookup tripId d.trip_to_route
  let routeDeps ← alookup (Sum.inl rid : RKey) d.route_stop_sq_to_dep_times
  let routeDeps ← pySet routeDeps u.stopSequence newDeparture
  let newRouteMap := aset (Sum.inl rid : RKey) routeDeps d.route_stop_sq_to_dep_times
  let d := { d with route_stop_sq_to_dep_times := newRouteMap }
  -- line 353: trip_to_arr_times_map[trip_id][stop_sq - 1] = new_arrival
  let arrs ← alookup tripId d.trip_to_arr_times
  let arrs ← pySet arrs (u.stopSequence - 1) newArrival
  let d := { d with trip_to_arr_times := aset tripId arrs d.trip_to_arr_times }
  -- line 354: trip_to_dep_times_map[trip_id][stop_sq - 1] = new_departure
  let deps ← alookup tripId d.trip_to_dep_times
  let deps ← pySet deps (u.stopSequence - 1) newDeparture
  let d := { d with trip_to_dep_times := aset tripId deps d.trip_to_dep_times }
  -- line 355: stop_to_dep_times_map[stop_id][stop_to_trips_map[stop_id].index(trip_id)] = new_departure
  let stopTrips ← alookup u.stopId d.stop_to_trips
  let idx ← pyListIndex tripId stopTrips
  let stopDeps ← alookup u.stopId d.stop_to_dep_times
  let stopDeps ← pySet stopDeps idx newDeparture
  pure { d with stop_to_dep_times := aset u.stopId stopDeps d.stop_to_dep_times }

/-- Lines 343–344: the inner loop over one entity's `stopTimeUpdate` list. -/
def applyTripUpdate (d : RTData) (t0 : Time) (tu : TripUpdate) : Option RTData :=
  tu.stopTimeUpdates.foldlM (fun d u => applyStopUpdate d t0 tu.tripId u) d

/-- Lines 342–355: the loop over `r["entity"]` applying a whole batch.
No exception is caught anywhere in the function. -/
def update_realtime_data (d : RTData) (t0 : Time) (batch : List TripUpdate) :
    Option RTData :=
  batch.foldlM (fun d tu => applyTripUpdate d t0 tu) d

/-- All keys of the route map as the builder creates them (pairs only). -/
def RouteKeysArePairs (d : RTData) : Prop :=
  ∀ k ∈ d.route_stop_sq_to_dep_times.map Prod.fst, ∃ p, k = Sum.inr p

theorem alookup_inl_eq_none {ν : Type} (l : List (RKey × ν)) (r : Rid)
    (h : ∀ k ∈ l.map Prod.fst, ∃ p, k = Sum.inr p) :
    alookup (Sum.inl r : RKey) l = none := by
  induction l with
  | nil => rfl
  | cons e rest ih =>
    have he : ∃ p, e.1 = Sum.inr p := h e.1 (by simp)
    obtain ⟨p, hp⟩ := he
    simp only [alookup, hp]
    rw [if_neg (by simp)]
    exact ih (fun k hk => h k (by simp [hk]))

/-- C2 (code behavior): a single stop-time update never mutates any cell.
Line 352 indexes `route_stop_sq_to_dep_times_map` with the bare `rid`
although its keys are `(rid, stop_sq)` pairs, so the first assignment of
the update raises `KeyError` before anything is written. -/
theorem applyStopUpdate_never_mutates (d : RTData) (hd : RouteKeysArePairs d)
    (t0 : Time) (tripId : Trip) (u : StopTimeUpdate) :
    applyStopUpdate d t0 tripId u = none := by
  unfold applyStopUpdate
  cases htr : alookup tripId d.trip_to_route with
  | none => rfl
  | some rid =>
    simp [alookup_inl_eq_none d.route_stop_sq_to_dep_times rid hd]

theorem applyTripUpdate_fails (d : RTData) (hd : RouteKeysArePairs d)
    (t0 : Time) (tu : TripUpdate) (hne : tu.stopTimeUpdates ≠ []) :
    applyTripUpdate d t0 tu = none := by
  unfold applyTripUpdate
  cases h : tu.stopTimeUpdates with
  | nil => exact absurd h hne
  | cons u rest =>
    simp [List.foldlM, applyStopUpdate_never_mutates d hd t0 tu.tripId u]

/-- C1 (code behavior): far from preserving sortedness (re-sorting on
violation), the patcher aborts with `KeyError` on the first stop-time
update of a batch, because line 352 indexes the `(rid, stop_sq)`-keyed
departure map with the bare `rid`; the function contains no sorting at
all. -/
theorem update_realtime_data_aborts (d : RTData) (hd : RouteKeysArePairs d)
    (t0 : Time) (batch : List TripUpdate)
    (hb : ∃ tu ∈ batch, tu.stopTimeUpdates ≠ []) :
    update_realtime_data d t0 batch = none := by
  induction batch with
  | nil => simp at hb
  | cons tu rest ih =>
    unfold update_realtime_data at ih ⊢
    by_cases hne : tu.stopTimeUpdates = []
    · have h1 : applyTripUpdate d t0 tu = some d := by
        unfold applyTripUpdate
        rw [hne]
        rfl
      rw [List.foldlM_cons, h1]
      have hb2 : ∃ tu2 ∈ rest, tu2.stopTimeUpdates ≠ [] := by
        obtain ⟨tu2, htu2, hne2⟩ := hb
        rcases List.mem_cons.mp htu2 with h | h
        · rw [h] at hne2
          exact absurd hne hne2
        · exact ⟨tu2, h, hne2⟩
      simpa using ih hb2
    · rw [List.foldlM_cons, applyTripUpdate_fails d hd t0 tu hne]
      rfl

/-- A concrete index state shaped exactly like the builder's output:
one derived route `0` visiting `S1` (stop_sequence 1) then `S2`
(stop_sequence 2), served by trips `T1` and `T2`. -/
def exRTData : RTData where
  route_stop_sq_to_dep_times := [(Sum.inr (0, 1), [100, 200]), (Sum.inr (0, 2), [150, 250])]
  trip_to_arr_times := [("T1", [100, 150]), ("T2", [200, 250])]
  trip_to_dep_times := [("T1", [100, 150]), ("T2", [200, 250])]
  stop_to_trips := [("S1", ["T1", "T2"]), ("S2", ["T1", "T2"])]
  stop_to_dep_times := [("S1", [100, 200]), ("S2", [150, 250])]
  trip_to_route := [("T1", 0), ("T2", 0)]

theorem exRTData_keys : RouteKeysArePairs exRTData := by
  intro k hk
  simp [exRTData] at hk
  rcases hk with h | h
  · exact ⟨(0, 1), h⟩
  · exact ⟨(0, 2), h⟩

/-- Witness for C1: a batch holding a single well-formed update for the
known trip `T1` is aborted. -/
theorem update_realtime_data_aborts_witness :
    update_realtime_data exRTData 0 [⟨"T1", [⟨"S1", 1, 100, 105⟩]⟩] = none :=
  update_realtime_data_aborts exRTData exRTData_keys 0
    [⟨"T1", [⟨"S1", 1, 100, 105⟩]⟩]
    ⟨⟨"T1", [⟨"S1", 1, 100, 105⟩]⟩, by simp, by simp⟩

/-- Witness for C2: the patch for trip `T1` at stop `S1` leaves no trace,
it only raises. -/
theorem applyStopUpdate_never_mutates_witness :
    applyStopUpdate exRTData 0 "T1" ⟨"S1", 1, 100, 105⟩ = none :=
  applyStopUpdate_never_mutates exRTData exRTData_keys 0 "T1" ⟨"S1", 1, 100, 105⟩

/-- C3 (code behavior): an update with an unknown `trip_id` is not logged
and skipped; `trip_to_route_map[trip_id]` raises `KeyError` with no
`try`/`except` around it, so the whole batch aborts and the following
well-formed update for the known trip `T2` is never applied. -/
theorem unknown_trip_aborts_batch :
    update_realtime_data exRTData 0
      [⟨"NO_SUCH_TRIP", [⟨"S1", 1, 100, 105⟩]⟩, ⟨"T2", [⟨"S2", 2, 150, 155⟩]⟩] = none := by
  rfl

/-! ## Sorting

Python's `sorted` (and pandas' `sort_values`) produce an ascending
permutation of their input; they are modelled by insertion sort. -/

/-- Insert `a` into a list kept ascending with respect to `key`. -/
def insertByKey {α : Type} (key : α → Time) (a : α) : List α → List α
  | [] => [a]
  | x :: xs => if key a ≤ key x then a :: x :: xs else x :: insertByKey key a xs

/-- Insertion sort, ascending with respect to `key`; models `sorted`. -/
def sortByKey {α : Type} (key : α → Time) : List α → List α
  | [] => []
  | x :: xs => insertByKey key x (sortByKey key xs)

theorem perm_insertByKey {α : Type} (key : α → Time) (a : α) (l : List α) :
    List.Perm (insertByKey key a l) (a :: l) := by
  induction l with
  | nil => rfl
  | cons x xs ih =>
    unfold insertByKey
    by_cases h : key a ≤ key x
    · rw [if_pos h]
    · rw [if_neg h]
      exact (ih.cons x).trans (List.Perm.swap a x xs)

theorem perm_sortByKey {α : Type} (key : α → Time) (l : List α) :
    List.Perm (sortByKey key l) l := by
  induction l with
  | nil => rfl
  | cons x xs ih => exact (perm_insertByKey key x (sortByKey key xs)).trans (ih.cons x)

theorem pairwise_insertByKey {α : Type} (key : α → Time) (a : α) (l : List α)
    (h : l.Pairwise (fun u v => key u ≤ key v)) :
    (insertByKey key a l).Pairwise (fun u v => key u ≤ key v) := by
  induction l with
  | nil => simp [insertByKey]
  | cons x xs ih =>
    unfold insertByKey
    by_cases hle : key a ≤ key x
    · rw [if_pos hle]
      refine List.Pairwise.cons ?_ h
      intro b hb
      rcases List.mem_cons.mp hb with hb | hb
      · rw [hb]
        exact hle
      · exact le_trans hle (List.rel_of_pairwise_cons h hb)
    · rw [if_neg hle]
      refine List.Pairwise.cons ?_ (ih (List.Pairwise.sublist (List.sublist_cons_self x xs) h))
      intro b hb
      have hb2 := (perm_insertByKey key a xs).mem_iff.mp hb
      rcases List.mem_cons.mp hb2 with hb2 | hb2
      · rw [hb2]
        exact le_of_not_le hle
      · exact List.rel_of_pairwise_cons h hb2

theorem pairwise_sortByKey {α : Type} (key : α → Time) (l : List α) :
    (sortByKey key l).Pairwise (fun u v => key u ≤ key v) := by
  induction l with
  | nil => exact List.Pairwise.nil
  | cons x xs ih => exact pairwise_insertByKey key x (sortByKey key xs) ih

/-! ## `_get_departure_times` (claim C4) -/

/-- The read-only maps `_get_departure_times` consults. -/
structure SeedSys where
  stop_to_routes : List (Stop × List Rid)
  stop_to_trips : List (Stop × List Trip)
  stop_to_dep_times : List (Stop × List Time)

/-- `np.searchsorted` (left insertion point) on an ascending list. -/
def searchsortedLeft (l : List Time) (v : Time) : Nat :=
  (l.takeWhile (fun t => decide (t < v))).length

/-- Lines 145–150: keep, per connected route, the starting stop with the
smallest walk time (`routes_dct`). -/
def buildRoutesDct (sys : SeedSys) (startingStops : List (Stop × Time)) :
    Option (List (Rid × (Stop × Time))) :=
  startingStops.foldlM (fun acc sw => do
    let rs ← alookup sw.1 sys.stop_to_routes
    pure (rs.foldl (fun acc r =>
      match alookup r acc with
      | none => acc ++ [(r, sw)]
      | some sw0 => if sw.2 < sw0.2 then aset r sw acc else acc) acc)) []

/-- Lines 157–162: scan a stop's departures (already offset past the
requested time), breaking at the one-hour horizon and collecting
`dep - walk_time` per unseen trip (`trips_dct`). -/
def collectTrips (limit : Time) (w : Time) :
    List Trip → List Time → List (Trip × Time) → List (Trip × Time)
  | [], _, acc => acc
  | _ :: _, [], acc => acc
  | t :: ts, dep :: ds, acc =>
    if limit < dep then acc
    else if (alookup t acc).isSome then collectTrips limit w ts ds acc
    else collectTrips limit w ts ds (acc ++ [(t, dep - w)])

/-- `_get_departure_times` (lines 135–170).  `none` models the uncaught
`IndexError` at line 166 (`departure_times = [all_departures[0]]`) when no
departure was collected. -/
def get_departure_times (sys : SeedSys) (startingStops : List (Stop × Time))
    (departureTime : Time) : Option (List (Stop × Time) × List Time) := do
  let routesDct ← buildRoutesDct sys startingStops
  let keep := routesDct.map (fun e => e.2.1)
  let startingStops := startingStops.filter (fun sw => keep.contains sw.1)
  let tripsDct ← startingStops.foldlM (fun acc sw => do
    let deps ← alookup sw.1 sys.stop_to_dep_times
    let trips ← alookup sw.1 sys.stop_to_trips
    let offset := searchsortedLeft deps (departureTime + sw.2)
    pure (collectTrips (departureTime + sw.2 + 3600) sw.2
      (trips.drop offset) (deps.drop offset) acc)) []
  let allDepartures := sortByKey (fun t => t) (tripsDct.map Prod.snd)
  match allDepartures with
  | [] => none
  | d0 :: _ =>
    let departureTimes := allDepartures.foldl
      (fun kept t => if t - kept.getLastD d0 > 600 then kept ++ [t] else kept) [d0]
    pure (startingStops, departureTimes)

/-- C4 (code behavior): with no walk-reachable starting stop the search
does not return an empty result; `_get_departure_times` collects no
departures and `all_departures[0]` raises `IndexError`, which nothing in
`_search` catches. -/
theorem get_departure_times_raises_on_empty (sys : SeedSys) (departureTime : Time) :
    get_departure_times sys [] departureTime = none := by
  rfl

/-! ## Journeys (claims C5, C6, C10)

One leg of a reconstructed journey, with the exact fields the Python dicts
carry in `_get_journeys`. -/

structure Leg where
  from_stop_name : String
  from_platform_code : Option String
  departure_time : Time
  to_stop_name : String
  to_platform_code : Option String
  arrival_time : Time
  route_name : String
deriving DecidableEq, Repr

structure Journey where
  path : List Leg
  n_transfers : Nat
  departure_time : Time
  arrival_time : Time
  total_duration : Time
deriving DecidableEq, Repr

/-! ### Dictionary lemmas used below -/

theorem alookup_eq_none_iff {κ ν : Type} [DecidableEq κ] (k : κ) (l : List (κ × ν)) :
    alookup k l = none ↔ k ∉ l.map Prod.fst := by
  induction l with
  | nil => simp [alookup]
  | cons e rest ih =>
    simp only [alookup, List.map_cons, List.mem_cons, not_or]
    by_cases h : e.1 = k
    · simp [h]
    · rw [if_neg h, ih]
      constructor
      · intro hk
        exact ⟨fun he2 => h he2.symm, hk⟩
      · intro hk
        exact hk.2

theorem alookup_isSome_iff {κ ν : Type} [DecidableEq κ] (k : κ) (l : List (κ × ν)) :
    (alookup k l).isSome ↔ k ∈ l.map Prod.fst := by
  rw [← Decidable.not_not (p := k ∈ l.map Prod.fst), ← alookup_eq_none_iff]
  cases alookup k l <;> simp

theorem alookup_append_of_none {κ ν : Type} [DecidableEq κ] (k : κ) (l l2 : List (κ × ν))
    (h : alookup k l = none) : alookup k (l ++ l2) = alookup k l2 := by
  induction l with
  | nil => rfl
  | cons e rest ih =>
    by_cases he : e.1 = k
    · simp [alookup, he] at h
    · simp only [alookup, he] at h
      simp only [List.cons_append, alookup, he, if_false]
      exact ih h

theorem alookup_append_of_some {κ ν : Type} [DecidableEq κ] (k : κ) (l l2 : List (κ × ν))
    (v : ν) (h : alookup k l = some v) : alookup k (l ++ l2) = some v := by
  induction l with
  | nil => simp [alookup] at h
  | cons e rest ih =>
    rw [List.cons_append]
    unfold alookup at h ⊢
    by_cases he : e.1 = k
    · rw [if_pos he] at h ⊢
      exact h
    · rw [if_neg he] at h ⊢
      exact ih h

theorem alookup_aset_eq {κ ν : Type} [DecidableEq κ] (k : κ) (v : ν) (l : List (κ × ν))
    (h : k ∈ l.map Prod.fst) : alookup k (aset k v l) = some v := by
  induction l with
  | nil => simp at h
  | cons e rest ih =>
    by_cases he : e.1 = k
    · simp [aset, alookup, he]
    · have h2 : k ∈ rest.map Prod.fst := by
        simp only [List.map_cons, List.mem_cons] at h
        rcases h with h | h
        · exact absurd h.symm he
        · exact h
      simp [aset, alookup, he, ih h2]

theorem alookup_aset_ne {κ ν : Type} [DecidableEq κ] (k k2 : κ) (v : ν) (l : List (κ × ν))
    (h : k2 ≠ k) : alookup k2 (aset k v l) = alookup k2 l := by
  induction l with
  | nil => rfl
  | cons e rest ih =>
    by_cases he : e.1 = k
    · simp [aset, alookup, he, Ne.symm h]
    · simp [aset, alookup, he, ih]

theorem map_fst_aset {κ ν : Type} [DecidableEq κ] (k : κ) (v : ν) (l : List (κ × ν)) :
    (aset k v l).map Prod.fst = l.map Prod.fst := by
  induction l with
  | nil => rfl
  | cons e rest ih =>
    by_cases he : e.1 = k
    · simp [aset, he]
    · simp [aset, he, ih]

/-! ### `_filter_journeys` (claim C6) -/

/-- One iteration of the loop at lines 325–329: insert the journey under
its departure time if that key is unseen, then re-read the stored journey
and replace it when this one arrives strictly earlier. -/
def filterStep (acc : List (Time × Journey)) (j : Journey) : List (Time × Journey) :=
  let acc1 := if (alookup j.departure_time acc).isNone then
    acc ++ [(j.departure_time, j)] else acc
  match alookup j.departure_time acc1 with
  | some cur => if j.arrival_time < cur.arrival_time then aset j.departure_time j acc1 else acc1
  | none => acc1

/-- `_filter_journeys` (lines 320–330): fold the journeys through the
dictionary, then emit the stored journeys in ascending key order
(`[filtered_journeys[k] for k in sorted(filtered_journeys.keys())]`). -/
def filter_journeys (journeys : List Journey) : List Journey :=
  (sortByKey (fun t => t) ((journeys.foldl filterStep []).map Prod.fst)).filterMap
    (fun k => alookup k (journeys.foldl filterStep []))

/-- Invariant of the dictionary while folding: keys are distinct, every
stored journey is a seen journey with minimal arrival among seen journeys
sharing its key, and every seen departure time is a key. -/
def FilterAccInv (seen : List Journey) (acc : List (Time × Journey)) : Prop :=
  (acc.map Prod.fst).Nodup
  ∧ (∀ k j, alookup k acc = some j → j ∈ seen ∧ j.departure_time = k ∧
      ∀ j2 ∈ seen, j2.departure_time = k → j.arrival_time ≤ j2.arrival_time)
  ∧ (∀ j2 ∈ seen, (alookup j2.departure_time acc).isSome)

theorem filterStep_inv (seen : List Journey) (acc : List (Time × Journey)) (j : Journey)
    (h : FilterAccInv seen acc) : FilterAccInv (seen ++ [j]) (filterStep acc j) := by
  obtain ⟨hnd, hent, hcov⟩ := h
  unfold filterStep
  cases hl : alookup j.departure_time acc with
  | none =>
    have hmem : j.departure_time ∉ acc.map Prod.fst := (alookup_eq_none_iff _ _).mp hl
    have hl1 : alookup j.departure_time (acc ++ [(j.departure_time, j)]) = some j := by
      rw [alookup_append_of_none _ _ _ hl]
      simp [alookup]
    simp only [hl, Option.isNone_none, if_true, hl1, lt_irrefl, if_false]
    refine ⟨?_, ?_, ?_⟩
    · rw [List.map_append]
      refine List.Nodup.append hnd (by simp) ?_
      intro a ha hb
      simp only [List.map_cons, List.map_nil, List.mem_singleton] at hb
      rw [hb] at ha
      exact hmem ha
    · intro k j3 h3
      by_cases hk : k = j.departure_time
      · rw [hk, hl1] at h3
        cases h3
        refine ⟨by simp, hk.symm, ?_⟩
        intro j2 hj2 hdep
        rcases List.mem_append.mp hj2 with hj2 | hj2
        · have := hcov j2 hj2
          rw [hdep, hk, hl] at this
          simp at this
        · simp only [List.mem_singleton] at hj2
          rw [hj2]
      · cases hacc : alookup k acc with
        | none =>
          rw [alookup_append_of_none _ _ _ hacc] at h3
          simp [alookup] at h3
          exact absurd h3.1 (fun hh => hk hh.symm)
        | some v =>
          rw [alookup_append_of_some _ _ _ _ hacc] at h3
          cases h3
          obtain ⟨hv1, hv2, hv3⟩ := hent k j3 hacc
          refine ⟨List.mem_append.mpr (Or.inl hv1), hv2, ?_⟩
          intro j2 hj2 hdep
          rcases List.mem_append.mp hj2 with hj2 | hj2
          · exact hv3 j2 hj2 hdep
          · simp only [List.mem_singleton] at hj2
            rw [hj2] at hdep
            exact absurd hdep.symm hk
    · intro j2 hj2
      rcases List.mem_append.mp hj2 with hj2 | hj2
      · have := hcov j2 hj2
        cases hacc : alookup j2.departure_time acc with
        | none => rw [hacc] at this; simp at this
        | some v => rw [alookup_append_of_some _ _ _ _ hacc]; rfl
      · simp only [List.mem_singleton] at hj2
        rw [hj2, hl1]
        rfl
  | some cur =>
    have hmem : j.departure_time ∈ acc.map Prod.fst := by
      have : (alookup j.departure_time acc).isSome := by rw [hl]; rfl
      exact (alookup_isSome_iff _ _).mp this
    simp only [hl, Option.isNone_some, Bool.false_eq_true, if_false]
    by_cases harr : j.arrival_time < cur.arrival_time
    · rw [if_pos harr]
      refine ⟨by rw [map_fst_aset]; exact hnd, ?_, ?_⟩
      · intro k j3 h3
        by_cases hk : k = j.departure_time
        · rw [hk, alookup_aset_eq _ _ _ hmem] at h3
          cases h3
          refine ⟨by simp, hk.symm, ?_⟩
          intro j2 hj2 hdep
          rcases List.mem_append.mp hj2 with hj2 | hj2
          · have := (hent j.departure_time cur hl).2.2 j2 hj2 (by rw [← hk]; exact hdep)
            exact le_trans (le_of_lt harr) this
          · simp only [List.mem_singleton] at hj2
            rw [hj2]
        · rw [alookup_aset_ne _ _ _ _ hk] at h3
          obtain ⟨hv1, hv2, hv3⟩ := hent k j3 h3
          refine ⟨List.mem_append.mpr (Or.inl hv1), hv2, ?_⟩
          intro j2 hj2 hdep
          rcases List.mem_append.mp hj2 with hj2 | hj2
          · exact hv3 j2 hj2 hdep
          · simp only [List.mem_singleton] at hj2
            rw [hj2] at hdep
            exact absurd hdep.symm hk
      · intro j2 hj2
        rcases List.mem_append.mp hj2 with hj2 | hj2
        · by_cases hk : j2.departure_time = j.departure_time
          · rw [hk, alookup_aset_eq _ _ _ hmem]
            rfl
          · rw [alookup_aset_ne _ _ _ _ hk]
            exact hcov j2 hj2
        · simp only [List.mem_singleton] at hj2
          rw [hj2, alookup_aset_eq _ _ _ hmem]
          rfl
    · rw [if_neg harr]
      refine ⟨hnd, ?_, ?_⟩
      · intro k j3 h3
        obtain ⟨hv1, hv2, hv3⟩ := hent k j3 h3
        refine ⟨List.mem_append.mpr (Or.inl hv1), hv2, ?_⟩
        intro j2 hj2 hdep
        rcases List.mem_append.mp hj2 with hj2 | hj2
        · exact hv3 j2 hj2 hdep
        · simp only [List.mem_singleton] at hj2
          by_cases hk : k = j.departure_time
          · rw [hk, hl] at h3
            cases h3
            rw [hj2]
            exact le_of_not_lt harr
          · rw [hj2] at hdep
            exact absurd hdep.symm hk
      · intro j2 hj2
        rcases List.mem_append.mp hj2 with hj2 | hj2
        · exact hcov j2 hj2
        · simp only [List.mem_singleton] at hj2
          rw [hj2, hl]
          rfl

theorem foldl_filterStep_inv (js : List Journey) (seen : List Journey)
    (acc : List (Time × Journey)) (h : FilterAccInv seen acc) :
    FilterAccInv (seen ++ js) (js.foldl filterStep acc) := by
  induction js generalizing seen acc with
  | nil => simpa using h
  | cons j rest ih =>
    have h2 := ih (seen ++ [j]) (filterStep acc j) (filterStep_inv seen acc j h)
    simpa [List.append_assoc] using h2

theorem filterMap_alookup_keys (acc : List (Time × Journey)) :
    ∀ ks : List Time,
      (∀ k ∈ ks, ∃ jj, alookup k acc = some jj ∧ jj.departure_time = k) →
      (ks.filterMap (fun k => alookup k acc)).map (fun j => j.departure_time) = ks := by
  intro ks hks
  induction ks with
  | nil => rfl
  | cons k rest ih =>
    obtain ⟨jj, hjj, hdep⟩ := hks k (by simp)
    simp only [List.filterMap_cons, hjj, List.map_cons, hdep]
    rw [ih (fun k2 hk2 => hks k2 (by simp [hk2]))]

/-- C6: the deduplication pass emits a list with strictly increasing
(hence ascending) departure times, holding one journey per distinct input
departure time, namely an input journey with the smallest arrival time
among the inputs sharing that departure time. -/
theorem filter_journeys_spec (journeys : List Journey) :
    ((filter_journeys journeys).map (fun j => j.departure_time)).Pairwise (· < ·)
    ∧ (∀ j ∈ filter_journeys journeys, j ∈ journeys ∧
        ∀ j2 ∈ journeys, j2.departure_time = j.departure_time →
          j.arrival_time ≤ j2.arrival_time)
    ∧ (∀ j2 ∈ journeys, ∃ j ∈ filter_journeys journeys,
        j.departure_time = j2.departure_time) := by
  have h0 : FilterAccInv [] ([] : List (Time × Journey)) := by
    refine ⟨List.nodup_nil, ?_, ?_⟩
    · intro k j h
      simp [alookup] at h
    · intro j2 h
      simp at h
  have hinv : FilterAccInv journeys (journeys.foldl filterStep []) := by
    simpa using foldl_filterStep_inv journeys [] [] h0
  obtain ⟨hnd, hent, hcov⟩ := hinv
  have hperm := perm_sortByKey (fun t => t) ((journeys.foldl filterStep []).map Prod.fst)
  have hkeys : ∀ k ∈ sortByKey (fun t => t) ((journeys.foldl filterStep []).map Prod.fst),
      ∃ jj, alookup k (journeys.foldl filterStep []) = some jj ∧ jj.departure_time = k := by
    intro k hk
    have hk2 : k ∈ (journeys.foldl filterStep []).map Prod.fst := hperm.mem_iff.mp hk
    have hs : (alookup k (journeys.foldl filterStep [])).isSome :=
      (alookup_isSome_iff _ _).mpr hk2
    cases hl : alookup k (journeys.foldl filterStep []) with
    | none => rw [hl] at hs; simp at hs
    | some jj => exact ⟨jj, rfl, (hent k jj hl).2.1⟩
  have hmapdep := filterMap_alookup_keys (journeys.foldl filterStep []) _ hkeys
  refine ⟨?_, ?_, ?_⟩
  · unfold filter_journeys
    rw [hmapdep]
    have hle := pairwise_sortByKey (fun t => t) ((journeys.foldl filterStep []).map Prod.fst)
    have hndup : (sortByKey (fun t => t) ((journeys.foldl filterStep []).map Prod.fst)).Nodup :=
      (hperm.nodup_iff).mpr hnd
    have hne : (sortByKey (fun t => t) ((journeys.foldl filterStep []).map Prod.fst)).Pairwise
        (fun u v => u ≠ v) := hndup
    exact (hle.and hne).imp (fun hab => lt_of_le_of_ne hab.1 hab.2)
  · intro j hj
    unfold filter_journeys at hj
    obtain ⟨k, hk, hl⟩ := List.mem_filterMap.mp hj
    obtain ⟨h1, h2, h3⟩ := hent k j hl
    exact ⟨h1, fun j2 hj2 hdep => h3 j2 hj2 (by rw [hdep, h2])⟩
  · intro j2 hj2
    have h1 := hcov j2 hj2
    cases hl : alookup j2.departure_time (journeys.foldl filterStep []) with
    | none => rw [hl] at h1; simp at h1
    | some jj =>
      refine ⟨jj, ?_, (hent _ jj hl).2.1⟩
      unfold filter_journeys
      apply List.mem_filterMap.mpr
      refine ⟨j2.departure_time, ?_, hl⟩
      apply hperm.mem_iff.mpr
      exact (alookup_isSome_iff _ _).mp (by rw [hl]; rfl)

/-! ## `_get_journeys` (claims C5, C10) -/

/-- The middle component of a label `(arrival_time, tag, from_stop)`:
a boarded trip's id, the `"walking"` sentinel, or the `None` of a round-0
seed label. -/
inductive Tag where
  | trip (t : Trip)
  | walking
  | seed
deriving DecidableEq, Repr

/-- One label of `label[k][stop]`. -/
structure Entry where
  arr : Time
  tag : Tag
  fromStop : Option Stop
deriving DecidableEq, Repr

/-- The read-only maps `_get_journeys` consults; modelled as total
functions (the reconstructions at stake never hit a missing key). -/
structure JSys where
  stop_to_stop_name : Stop → String
  stop_to_platform_code : Stop → Option String
  trip_stop_to_dep_time : Trip → Stop → Time
  trip_to_route_name : Trip → String

/-- The back-walking loop of lines 262–287: starting from
`(running_k, to_stop_id)` follow `label[running_k][to_stop_id]` backwards,
emitting one leg per step; `running_k` decreases only on trip legs and the
loop stops at `running_k = 0`, returning the legs (in emission order, i.e.
destination first) and the final `to_stop_id`.  `fuel` bounds the loop
(which Python leaves unbounded); `none` models a `KeyError` (including the
one a seed label's `None` tag causes at `trip_to_route_name_map[None]`). -/
def buildPath (jsys : JSys) (label : Nat → Stop → Option Entry) (endWalk : Time) :
    Nat → Nat → Stop → Option (List Leg × Stop)
  | _, 0, toStop => some ([], toStop)
  | 0, _ + 1, _ => none
  | fuel + 1, rk + 1, toStop =>
    match label (rk + 1) toStop with
    | none => none
    | some cur =>
      match cur.fromStop with
      | none => none
      | some fs =>
        match cur.tag with
        | Tag.walking =>
          let leg : Leg := {
            from_stop_name := jsys.stop_to_stop_name fs
            from_platform_code := jsys.stop_to_platform_code fs
            departure_time := cur.arr - endWalk
            to_stop_name := jsys.stop_to_stop_name toStop
            to_platform_code := jsys.stop_to_platform_code toStop
            arrival_time := cur.arr
            route_name := "walking" }
          (buildPath jsys label endWalk fuel (rk + 1) fs).map
            (fun pr => (leg :: pr.1, pr.2))
        | Tag.trip t =>
          let leg : Leg := {
            from_stop_name := jsys.stop_to_stop_name fs
            from_platform_code := jsys.stop_to_platform_code fs
            departure_time := jsys.trip_stop_to_dep_time t fs
            to_stop_name := jsys.stop_to_stop_name toStop
            to_platform_code := jsys.stop_to_platform_code toStop
            arrival_time := cur.arr
            route_name := jsys.trip_to_route_name t }
          (buildPath jsys label endWalk fuel rk fs).map
            (fun pr => (leg :: pr.1, pr.2))
        | Tag.seed => none

/-- Lines 289–317: drop empty paths, reverse, prepend the origin walk
(using `start_walk_time_dct[to_stop_id]`), append the destination walk
(using `end_walk_time`) and attach the summary fields. -/
def mkJourney (path0 : List Leg) (toStop : Stop) (k : Nat)
    (startWalkDct : List (Stop × Time)) (endWalk : Time) : Option Journey :=
  match path0.reverse with
  | [] => none
  | first :: rest =>
    match alookup toStop startWalkDct with
    | none => none
    | some sw =>
      let originLeg : Leg := {
        from_stop_name := "origin"
        from_platform_code := none
        departure_time := first.departure_time - sw
        to_stop_name := first.from_stop_name
        to_platform_code := first.from_platform_code
        arrival_time := first.departure_time
        route_name := "walking" }
      let last := (first :: rest).getLastD originLeg
      let destLeg : Leg := {
        from_stop_name := last.to_stop_name
        from_platform_code := last.to_platform_code
        departure_time := last.arrival_time
        to_stop_name := "destination"
        to_platform_code := none
        arrival_time := last.arrival_time + endWalk
        route_name := "walking" }
      let full := (originLeg :: first :: rest) ++ [destLeg]
      some {
        path := full
        n_transfers := k - 1
        departure_time := (full.headD destLeg).departure_time
        arrival_time := (full.getLastD originLeg).arrival_time
        total_duration := (full.getLastD originLeg).arrival_time
          - (full.headD destLeg).departure_time }

/-- `_get_journeys` (lines 250–318): for every seed's label set, every
ending stop and every round `k` in which the ending stop is labelled,
reconstruct a journey.  `rounds` is the key list of the label dict
(`range(MAX_RAPTOR_ROUNDS + 1)`). -/
def get_journeys (jsys : JSys) (fuel : Nat)
    (labelsLst : List (Nat → Stop → Option Entry)) (rounds : List Nat)
    (startingStops : List (Stop × Time)) (endingStops : List (Stop × Time)) :
    List Journey :=
  labelsLst.flatMap (fun label =>
    endingStops.flatMap (fun ew =>
      rounds.filterMap (fun k =>
        match label k ew.1 with
        | none => none
        | some _ =>
          match buildPath jsys label ew.2 fuel k ew.1 with
          | none => none
          | some pr => mkJourney pr.1 pr.2 k startingStops ew.2)))

theorem buildPath_zero (jsys : JSys) (label : Nat → Stop → Option Entry)
    (endWalk : Time) (fuel : Nat) (s : Stop) :
    buildPath jsys label endWalk fuel 0 s = some ([], s) := by
  cases fuel <;> rfl

theorem buildPath_has_trip_leg (jsys : JSys) (label : Nat → Stop → Option Entry)
    (endWalk : Time) (hnames : ∀ t, jsys.trip_to_route_name t ≠ "walking") :
    ∀ fuel rk toStop pr,
      buildPath jsys label endWalk fuel (rk + 1) toStop = some pr →
      ∃ leg ∈ pr.1, leg.route_name ≠ "walking" := by
  intro fuel
  induction fuel with
  | zero =>
    intro rk toStop pr h
    simp [buildPath] at h
  | succ fuel ih =>
    intro rk toStop pr h
    unfold buildPath at h
    cases hl : label (rk + 1) toStop with
    | none => rw [hl] at h; simp at h
    | some cur =>
      rw [hl] at h
      dsimp only at h
      cases hf : cur.fromStop with
      | none => rw [hf] at h; simp at h
      | some fs =>
        rw [hf] at h
        cases ht : cur.tag with
        | seed => rw [ht] at h; simp at h
        | walking =>
          rw [ht] at h
          dsimp only at h
          cases hrec : buildPath jsys label endWalk fuel (rk + 1) fs with
          | none => rw [hrec] at h; simp at h
          | some pr2 =>
            rw [hrec] at h
            simp only [Option.map_some', Option.some_inj] at h
            obtain ⟨leg2, hmem, hne⟩ := ih rk fs pr2 hrec
            rw [← h]
            exact ⟨leg2, by simp [hmem], hne⟩
        | trip t =>
          rw [ht] at h
          dsimp only at h
          cases hrec : buildPath jsys label endWalk fuel rk fs with
          | none => rw [hrec] at h; simp at h
          | some pr2 =>
            rw [hrec] at h
            simp only [Option.map_some', Option.some_inj] at h
            rw [← h]
            exact ⟨_, List.mem_cons_self _ _, hnames t⟩

theorem mkJourney_path_mem (path0 : List Leg) (toStop : Stop) (k : Nat)
    (swd : List (Stop × Time)) (endWalk : Time) (j : Journey)
    (h : mkJourney path0 toStop k swd endWalk = some j) :
    ∀ leg ∈ path0, leg ∈ j.path := by
  unfold mkJourney at h
  cases hrev : path0.reverse with
  | nil => rw [hrev] at h; simp at h
  | cons first rest =>
    rw [hrev] at h
    cases hsw : alookup toStop swd with
    | none => rw [hsw] at h; simp at h
    | some sw =>
      rw [hsw] at h
      dsimp only at h
      cases h
      intro leg hleg
      have hmem : leg ∈ first :: rest := by
        rw [← hrev]
        exact List.mem_reverse.mpr hleg
      exact List.mem_append_left _ (List.mem_cons_of_mem _ hmem)

/-- C10: every journey `_get_journeys` returns contains at least one
non-walking (trip) leg: a `k = 0` reconstruction yields the empty path,
which is dropped, so purely-walking origin-to-destination connections are
never returned.  (Route names, built as `route_desc + " " +
route_short_name`, are assumed to differ from the `"walking"` sentinel.) -/
theorem get_journeys_has_trip_leg (jsys : JSys) (fuel : Nat)
    (labelsLst : List (Nat → Stop → Option Entry)) (rounds : List Nat)
    (startingStops endingStops : List (Stop × Time))
    (hnames : ∀ t, jsys.trip_to_route_name t ≠ "walking") :
    ∀ j ∈ get_journeys jsys fuel labelsLst rounds startingStops endingStops,
      ∃ leg ∈ j.path, leg.route_name ≠ "walking" := by
  intro j hj
  unfold get_journeys at hj
  obtain ⟨label, hlabel, hj⟩ := List.mem_flatMap.mp hj
  obtain ⟨ew, hew, hj⟩ := List.mem_flatMap.mp hj
  obtain ⟨k, hk, hj2⟩ := List.mem_filterMap.mp hj
  cases hl : label k ew.1 with
  | none => rw [hl] at hj2; simp at hj2
  | some e0 =>
    rw [hl] at hj2
    dsimp only at hj2
    cases hbp : buildPath jsys label ew.2 fuel k ew.1 with
    | none => rw [hbp] at hj2; simp at hj2
    | some pr =>
      rw [hbp] at hj2
      dsimp only at hj2
      cases k with
      | zero =>
        have hz : pr = ([], ew.1) := by
          have := buildPath_zero jsys label ew.2 fuel ew.1
          rw [this] at hbp
          exact (Option.some_inj.mp hbp).symm
        rw [hz] at hj2
        simp [mkJourney] at hj2
      | succ rk =>
        obtain ⟨leg, hmem, hne⟩ := buildPath_has_trip_leg jsys label ew.2 hnames
          fuel rk ew.1 pr hbp
        exact ⟨leg, mkJourney_path_mem pr.1 pr.2 _ _ _ j hj2 leg hmem, hne⟩

/-- A concrete journey-retrieval context: stop names are the stop ids,
trip `T1` departs stop `S` at 840, trip `T2` departs stop `B` at 950. -/
def exJSys : JSys where
  stop_to_stop_name := fun s => s
  stop_to_platform_code := fun _ => none
  trip_stop_to_dep_time := fun t s =>
    if t = "T1" ∧ s = "S" then 840 else if t = "T2" ∧ s = "B" then 950 else 0
  trip_to_route_name := fun _ => "Pendeln 11"

/-- A label set with a single trip leg: round 0 seeds `A`, round 1 reaches
`B` by trip `T7` from `A`. -/
def exLabel : Nat → Stop → Option Entry := fun k s =>
  if k = 0 ∧ s = "A" then some ⟨800, Tag.seed, none⟩
  else if k = 1 ∧ s = "B" then some ⟨1000, Tag.trip "T7", some "A"⟩
  else none

theorem exJSys_names (t : Trip) : exJSys.trip_to_route_name t ≠ "walking" := by
  show "Pendeln 11" ≠ "walking"
  decide

/-- Witness for C10 on a concrete label set producing one journey. -/
theorem get_journeys_has_trip_leg_witness :
    (∀ t, exJSys.trip_to_route_name t ≠ "walking")
    ∧ ∀ j ∈ get_journeys exJSys 5 [exLabel] [0, 1] [("A", 10)] [("B", 20)],
        ∃ leg ∈ j.path, leg.route_name ≠ "walking" :=
  ⟨exJSys_names,
   get_journeys_has_trip_leg exJSys 5 [exLabel] [0, 1] [("A", 10)] [("B", 20)]
     exJSys_names⟩

/-- The label set of the C5 scenario: the seed is `S` (round 0); round 1
reaches `A` by trip `T1` and `B` by walking from `A`; round 2 reaches the
ending stop `C` by trip `T2` boarded at `B`. -/
def exLabel5 : Nat → Stop → Option Entry := fun k s =>
  if k = 0 ∧ s = "S" then some ⟨700, Tag.seed, none⟩
  else if k = 1 ∧ s = "A" then some ⟨870, Tag.trip "T1", some "S"⟩
  else if k = 1 ∧ s = "B" then some ⟨900, Tag.walking, some "A"⟩
  else if k = 2 ∧ s = "C" then some ⟨1200, Tag.trip "T2", some "B"⟩
  else none

/-- The walk time of the footpath edge `A → B` in the C5 scenario
(`transits_dct["A"]["B"]`), deliberately different from the 50 s
`end_walk` of the ending stop `C`. -/
def exTransitAB : Time := 30

/-- C5 (code behavior): the intermediate walking leg `A → B` (arrival
900) of the reconstructed journey gets `departure_time = arr − end_walk =
850`, not `arr − walk_seconds of the edge = 870`: `_get_journeys` line 270
subtracts `end_walk_time` for every walking leg, including ones that are
not the final leg into the ending stop. -/
theorem walking_leg_uses_end_walk :
    ∃ j ∈ get_journeys exJSys 9 [exLabel5] [0, 1, 2] [("S", 10)] [("C", 50)],
      ∃ leg ∈ j.path, leg.route_name = "walking"
        ∧ leg.to_stop_name = "B"
        ∧ leg.arrival_time = 900
        ∧ leg.departure_time = 850
        ∧ leg.departure_time ≠ 900 - exTransitAB := by
  decide

/-! ## `_raptor` (claim C7) -/

/-- The read-only index `_raptor` consults; `transits_dct` is an `Option`
to mirror the `if p not in self.transits_dct` guard at line 235, the rest
are total functions. -/
structure RaptorSys where
  stop_to_routes_map : Stop → List Rid
  route_stop_sq_map : Rid → Stop → Nat
  route_to_stops_map : Rid → List Stop
  route_stop_sq_to_dep_times_map : Rid → Nat → List Time
  route_stop_sq_to_trips_map : Rid → Nat → List Trip
  trip_to_arr_times_map : Trip → List Time
  trip_to_dep_times_map : Trip → List Time
  transits_dct : Stop → Option (List (Stop × Time))

/-- RAPTOR's mutable search state: `star_label` (`best`) and per-round
`label`. -/
structure RaptorState where
  star : Stop → Option Time
  label : Nat → Stop → Option Entry

/-- Invariant 4 of the spec: `best[p] ≤ round_label[k][p].arrival_time`
wherever the label is defined. -/
def StarLe (st : RaptorState) : Prop :=
  ∀ k p e, st.label k p = some e → ∃ b, st.star p = some b ∧ b ≤ e.arr

/-- The paired assignments `star_label[p] := e.arr; label[k][p] := e`. -/
def writeLabel (st : RaptorState) (k : Nat) (p : Stop) (e : Entry) : RaptorState where
  star := fun q => if q = p then some e.arr else st.star q
  label := fun k2 q => if k2 = k ∧ q = p then some e else st.label k2 q

/-- The guarded improvement write `if pi not in star_label or new_arrival
< star_label[pi]`, shared by the route scan (lines 214–217) and the
footpath relaxation (lines 239–242); appends the stop to the round's
marked list on success. -/
def relaxWrite (st : RaptorState) (k : Nat) (p : Stop) (e : Entry)
    (marked : List Stop) : RaptorState × List Stop :=
  match st.star p with
  | none => (writeLabel st k p e, marked ++ [p])
  | some b => if e.arr < b then (writeLabel st k p e, marked ++ [p]) else (st, marked)

/-- Lines 181–189: seed `star_label`, `label[0]` and the marked list. -/
def raptorInit (departureTime : Time) (startingStops : List (Stop × Time)) : RaptorState :=
  startingStops.foldl
    (fun st sw => writeLabel st 0 sw.1 ⟨departureTime + sw.2, Tag.seed, none⟩)
    ⟨fun _ => none, fun _ _ => none⟩

/-- Lines 198–200: `Q[r] = min(Q.get(r), stop_idx)`, insertion order kept. -/
def updateQ (Q : List (Rid × Nat)) (r : Rid) (si : Nat) : List (Rid × Nat) :=
  match alookup r Q with
  | none => Q ++ [(r, si)]
  | some v => if si < v then aset r si Q else Q

/-- Lines 194–200: accumulate the routes serving the marked stops. -/
def accumulateQ (sys : RaptorSys) (marked : List Stop) : List (Rid × Nat) :=
  marked.foldl (fun Q p =>
    (sys.stop_to_routes_map p).foldl (fun Q r => updateQ Q r (sys.route_stop_sq_map r p)) Q) []

/-- Lines 204–230: traverse one route from `stop_idx` onwards, carrying
the held trip `(t, t_arrs, t_deps, boarding_stop)` and threading the
state and the round's trip-marked list. -/
def traverseRoute (sys : RaptorSys) (k : Nat) (r : Rid) :
    List Stop → Nat → Option (Trip × List Time × List Time × Stop) →
    RaptorState × List Stop → RaptorState × List Stop
  | [], _, _, acc => acc
  | pi :: rest, stopIdx, hold, acc =>
    let acc1 :=
      match hold with
      | some (t, tArrs, _, bs) =>
        relaxWrite acc.1 k pi ⟨tArrs.getD (stopIdx - 1) 0, Tag.trip t, some bs⟩ acc.2
      | none => acc
    let hold1 :=
      match acc1.1.label (k - 1) pi with
      | some prev =>
        if (match hold with
            | none => true
            | some (_, _, tDeps, _) => decide (prev.arr ≤ tDeps.getD (stopIdx - 1) 0)) then
          match (sys.route_stop_sq_to_trips_map r stopIdx).drop
              (searchsortedLeft (sys.route_stop_sq_to_dep_times_map r stopIdx) prev.arr) with
          | [] => none
          | t :: _ => some (t, sys.trip_to_arr_times_map t, sys.trip_to_dep_times_map t, pi)
        else hold
      | none => hold
    traverseRoute sys k r rest (stopIdx + 1) hold1 acc1

/-- Lines 233–242: relax footpaths out of every trip-marked stop,
collecting the foot-marked list. -/
def footRelax (sys : RaptorSys) (k : Nat) (tripMarked : List Stop)
    (st : RaptorState) : RaptorState × List Stop :=
  tripMarked.foldl (fun acc p =>
    match sys.transits_dct p with
    | none => acc
    | some edges => edges.foldl (fun acc pw =>
        let base := match acc.1.label k p with
          | some e => e.arr
          | none => 0
        relaxWrite acc.1 k pw.1 ⟨base + pw.2, Tag.walking, some p⟩ acc.2) acc)
    (st, [])

/-- One round `k` (lines 192–243): accumulate `Q`, scan each route, relax
footpaths, and form the next marked set. -/
def runRound (sys : RaptorSys) (k : Nat) (st : RaptorState) (marked : List Stop) :
    RaptorState × List Stop :=
  let Q := accumulateQ sys marked
  let scanned := Q.foldl (fun acc rq =>
    traverseRoute sys k rq.1 ((sys.route_to_stops_map rq.1).drop (rq.2 - 1)) rq.2 none acc)
    (st, [])
  let footed := footRelax sys k scanned.2 scanned.1
  (footed.1, (scanned.2 ++ footed.2).dedup)

/-- `_raptor` for one seed departure time (lines 179–245). -/
def raptorRun (sys : RaptorSys) (maxRounds : Nat) (departureTime : Time)
    (startingStops : List (Stop × Time)) : RaptorState :=
  ((List.range maxRounds).foldl
    (fun acc i => runRound sys (i + 1) acc.1 acc.2)
    (raptorInit departureTime startingStops, startingStops.map Prod.fst)).1

/-- `_raptor` (lines 172–248): one label set per seed departure time. -/
def raptor (sys : RaptorSys) (maxRounds : Nat) (startingStops : List (Stop × Time))
    (departureTimes : List Time) : List RaptorState :=
  departureTimes.map (fun dep => raptorRun sys maxRounds dep startingStops)

theorem foldl_inv {α β : Type} (P : α → Prop) (f : α → β → α) (l : List β) (a : α)
    (hstep : ∀ acc b, P acc → P (f acc b)) (h0 : P a) : P (l.foldl f a) := by
  induction l generalizing a with
  | nil => exact h0
  | cons x xs ih => exact ih (f a x) (hstep a x h0)

theorem starLe_raptorInit (departureTime : Time) (startingStops : List (Stop × Time)) :
    StarLe (raptorInit departureTime startingStops) := by
  have h := foldl_inv
    (fun st : RaptorState => ∀ k p e, st.label k p = some e → k = 0 ∧ st.star p = some e.arr)
    (fun st sw => writeLabel st 0 sw.1 ⟨departureTime + sw.2, Tag.seed, none⟩)
    startingStops ⟨fun _ => none, fun _ _ => none⟩ ?_ ?_
  · intro k p e hl
    exact ⟨e.arr, (h k p e hl).2, le_refl _⟩
  · intro st sw hst k p e hl
    unfold writeLabel at hl ⊢
    dsimp only at hl ⊢
    by_cases hk : k = 0 ∧ p = sw.1
    · rw [if_pos hk] at hl
      cases hl
      refine ⟨hk.1, ?_⟩
      rw [if_pos hk.2]
    · rw [if_neg hk] at hl
      obtain ⟨hk0, hstar⟩ := hst k p e hl
      by_cases hp : p = sw.1
      · exact absurd ⟨hk0, hp⟩ hk
      · rw [if_neg hp]
        exact ⟨hk0, hstar⟩
  · intro k p e hl
    cases hl

theorem starLe_relaxWrite (st : RaptorState) (k : Nat) (p : Stop) (e : Entry)
    (marked : List Stop) (h : StarLe st) : StarLe (relaxWrite st k p e marked).1 := by
  unfold relaxWrite
  cases hs : st.star p with
  | none =>
    dsimp only
    intro k2 q e2 hl
    unfold writeLabel at hl ⊢
    dsimp only at hl ⊢
    by_cases hq : k2 = k ∧ q = p
    · rw [if_pos hq] at hl
      cases hl
      rw [if_pos hq.2]
      exact ⟨e.arr, rfl, le_refl _⟩
    · rw [if_neg hq] at hl
      obtain ⟨b, hb, hble⟩ := h k2 q e2 hl
      by_cases hqp : q = p
      · rw [hqp, hs] at hb
        cases hb
      · rw [if_neg hqp]
        exact ⟨b, hb, hble⟩
  | some b0 =>
    dsimp only
    by_cases hlt : e.arr < b0
    · rw [if_pos hlt]
      intro k2 q e2 hl
      unfold writeLabel at hl ⊢
      dsimp only at hl ⊢
      by_cases hq : k2 = k ∧ q = p
      · rw [if_pos hq] at hl
        cases hl
        rw [if_pos hq.2]
        exact ⟨e.arr, rfl, le_refl _⟩
      · rw [if_neg hq] at hl
        obtain ⟨b, hb, hble⟩ := h k2 q e2 hl
        by_cases hqp : q = p
        · rw [if_pos hqp]
          refine ⟨e.arr, rfl, ?_⟩
          rw [hqp, hs] at hb
          cases hb
          exact le_trans (le_of_lt hlt) hble
        · rw [if_neg hqp]
          exact ⟨b, hb, hble⟩
    · rw [if_neg hlt]
      exact h

theorem starLe_traverseRoute (sys : RaptorSys) (k : Nat) (r : Rid) :
    ∀ (stops : List Stop) (stopIdx : Nat)
      (hold : Option (Trip × List Time × List Time × Stop))
      (acc : RaptorState × List Stop), StarLe acc.1 →
      StarLe (traverseRoute sys k r stops stopIdx hold acc).1 := by
  intro stops
  induction stops with
  | nil =>
    intro stopIdx hold acc h
    exact h
  | cons pi rest ih =>
    intro stopIdx hold acc h
    unfold traverseRoute
    dsimp only
    apply ih
    cases hold with
    | none => exact h
    | some tq =>
      obtain ⟨t, tArrs, tDeps, bs⟩ := tq
      exact starLe_relaxWrite _ _ _ _ _ h

theorem starLe_footRelax (sys : RaptorSys) (k : Nat) (tripMarked : List Stop)
    (st : RaptorState) (h : StarLe st) : StarLe (footRelax sys k tripMarked st).1 := by
  unfold footRelax
  refine foldl_inv (fun acc : RaptorState × List Stop => StarLe acc.1) _ tripMarked (st, []) ?_ h
  intro acc p hacc
  cases htr : sys.transits_dct p with
  | none => simpa [htr] using hacc
  | some edges =>
    simp only [htr]
    refine foldl_inv (fun acc2 : RaptorState × List Stop => StarLe acc2.1) _ edges acc ?_ hacc
    intro acc2 pw hacc2
    exact starLe_relaxWrite _ _ _ _ _ hacc2

theorem starLe_runRound (sys : RaptorSys) (k : Nat) (st : RaptorState)
    (marked : List Stop) (h : StarLe st) : StarLe (runRound sys k st marked).1 := by
  unfold runRound
  dsimp only
  apply starLe_footRelax
  refine foldl_inv (fun acc : RaptorState × List Stop => StarLe acc.1) _ _ (st, []) ?_ h
  intro acc rq hacc
  exact starLe_traverseRoute sys k rq.1 _ rq.2 none acc hacc

theorem starLe_raptorRun (sys : RaptorSys) (maxRounds : Nat) (departureTime : Time)
    (startingStops : List (Stop × Time)) :
    StarLe (raptorRun sys maxRounds departureTime startingStops) := by
  unfold raptorRun
  refine foldl_inv (fun acc : RaptorState × List Stop => StarLe acc.1) _ _ _ ?_ ?_
  · intro acc i hacc
    exact starLe_runRound sys (i + 1) acc.1 acc.2 hacc
  · exact starLe_raptorInit departureTime startingStops

/-- C7: throughout a single RAPTOR run the star labels bound the round
labels from below: the invariant `best[p] ≤ round_label[k][p].arrival_time`
holds at initialization, is preserved by every guarded write (both the
route-scan ones and the footpath-relaxation ones, which always write
`best` and the round label together), is preserved by every full round,
and therefore holds in each label set `_raptor` returns. -/
theorem raptor_star_le_labels :
    (∀ departureTime startingStops, StarLe (raptorInit departureTime startingStops))
    ∧ (∀ st k p e marked, StarLe st → StarLe (relaxWrite st k p e marked).1)
    ∧ (∀ sys k tripMarked st, StarLe st → StarLe (footRelax sys k tripMarked st).1)
    ∧ (∀ sys k st marked, StarLe st → StarLe (runRound sys k st marked).1)
    ∧ (∀ sys maxRounds startingStops departureTimes,
        ∀ st ∈ raptor sys maxRounds startingStops departureTimes, StarLe st) := by
  refine ⟨starLe_raptorInit, ?_, ?_, ?_, ?_⟩
  · intro st k p e marked h
    exact starLe_relaxWrite st k p e marked h
  · intro sys k tripMarked st h
    exact starLe_footRelax sys k tripMarked st h
  · intro sys k st marked h
    exact starLe_runRound sys k st marked h
  · intro sys maxRounds startingStops departureTimes st hst
    obtain ⟨dep, _, hdep⟩ := List.mem_map.mp hst
    rw [← hdep]
    exact starLe_raptorRun sys maxRounds dep startingStops

/-- Witness for C7: the invariant after a concrete guarded write on a
concretely initialized state. -/
theorem raptor_star_le_labels_witness :
    StarLe (relaxWrite (raptorInit 0 [("A", 5)]) 1 "B" ⟨7, Tag.trip "T", some "A"⟩ []).1 :=
  raptor_star_le_labels.2.1 (raptorInit 0 [("A", 5)]) 1 "B" ⟨7, Tag.trip "T", some "A"⟩ []
    (raptor_star_le_labels.1 0 [("A", 5)])

/-! ## `_generate_data_mappings`: `route_stop_sq_map` (claim C8) -/

/-- One row of the departure-sorted `stop_times_df` restricted to one
derived route: trip index within the route, 1-based `stop_sequence`,
stop id and departure time. -/
structure STRow where
  trip : Nat
  stop_sequence : Nat
  stop_id : Stop
  dep_time : Time
deriving DecidableEq, Repr

/-- The stop-time rows of one trip of the route: all trips of a derived
route visit `stops` in order with `stop_sequence = position + 1`. -/
def tripRows (i : Nat) : Nat → List Stop → List Time → List STRow
  | _, [], _ => []
  | _, _ :: _, [] => []
  | sq, s :: ss, d :: ds => ⟨i, sq, s, d⟩ :: tripRows i (sq + 1) ss ds

def routeRowsAux (stops : List Stop) : Nat → List (List Time) → List STRow
  | _, [] => []
  | i, deps :: rest => tripRows i 1 stops deps ++ routeRowsAux stops (i + 1) rest

/-- All stop-time rows of one derived route. -/
def routeRows (stops : List Stop) (tripDeps : List (List Time)) : List STRow :=
  routeRowsAux stops 0 tripDeps

/-- Lines 414 and 417 for one `(rid, stop_id)` pair: sort the rows by
`dep_time`, group by stop and take the first row's `stop_sequence`
(`groupby(["rid", "stop_id"])["stop_sequence"].first()`). -/
def route_stop_sq_map (stops : List Stop) (tripDeps : List (List Time)) (p : Stop) :
    Option Nat :=
  ((sortByKey (fun row => row.dep_time) (routeRows stops tripDeps)).find?
    (fun row => decide (row.stop_id = p))).map (fun row => row.stop_sequence)

/-- The position of the first occurrence of `p` in a stop list. -/
def firstIdx (p : Stop) : List Stop → Nat
  | [] => 0
  | s :: ss => if s = p then 0 else firstIdx p ss + 1

theorem firstIdx_lt (p : Stop) (l : List Stop) (h : p ∈ l) : firstIdx p l < l.length := by
  induction l with
  | nil => cases h
  | cons s ss ih =>
    unfold firstIdx
    by_cases hs : s = p
    · rw [if_pos hs]
      simp
    · rw [if_neg hs]
      have hp : p ∈ ss := by
        rcases List.mem_cons.mp h with h | h
        · exact absurd h.symm hs
        · exact h
      simpa using ih hp

theorem get_firstIdx (p : Stop) (l : List Stop) (h : p ∈ l)
    (hlt : firstIdx p l < l.length) : l[firstIdx p l] = p := by
  induction l with
  | nil => cases h
  | cons s ss ih =>
    by_cases hs : s = p
    · simp [firstIdx, hs]
    · have hp : p ∈ ss := by
        rcases List.mem_cons.mp h with h2 | h2
        · exact absurd h2.symm hs
        · exact h2
      have hlt2 : firstIdx p ss < ss.length := firstIdx_lt p ss hp
      simp [firstIdx, hs]
      exact ih hp hlt2

theorem firstIdx_le (p : Stop) (l : List Stop) (j : Nat) (hj : j < l.length)
    (hp : l[j] = p) : firstIdx p l ≤ j := by
  induction l generalizing j with
  | nil => cases hj
  | cons s ss ih =>
    unfold firstIdx
    by_cases hs : s = p
    · rw [if_pos hs]
      exact Nat.zero_le j
    · rw [if_neg hs]
      cases j with
      | zero => simp at hp; exact absurd hp hs
      | succ j2 =>
        have hj2 : j2 < ss.length := by simpa using hj
        have hp2 : ss[j2] = p := by simpa using hp
        have := ih j2 hj2 hp2
        omega

theorem tripRows_get (i : Nat) (stops : List Stop) :
    ∀ (deps : List Time) (sq j : Nat) (hj : j < stops.length) (hj2 : j < deps.length),
      (⟨i, sq + j, stops[j], deps[j]⟩ : STRow) ∈ tripRows i sq stops deps := by
  induction stops with
  | nil =>
    intro deps sq j hj hj2
    exact absurd hj (Nat.not_lt_zero j)
  | cons s ss ih =>
    intro deps sq j hj hj2
    cases deps with
    | nil => exact absurd hj2 (Nat.not_lt_zero j)
    | cons d ds =>
      cases j with
      | zero => simp [tripRows]
      | succ j2 =>
        have hjs : j2 < ss.length := by simpa using hj
        have hjs2 : j2 < ds.length := by simpa using hj2
        have hmem := ih ds (sq + 1) j2 hjs hjs2
        simp only [tripRows, List.getElem_cons_succ]
        apply List.mem_cons_of_mem
        have hsq : sq + (j2 + 1) = sq + 1 + j2 := by omega
        rw [hsq]
        exact hmem

theorem tripRows_mem (i : Nat) (stops : List Stop) :
    ∀ (deps : List Time) (sq : Nat) (row : STRow),
      row ∈ tripRows i sq stops deps →
      ∃ (j : Nat) (hj : j < stops.length) (hj2 : j < deps.length),
        row = ⟨i, sq + j, stops[j], deps[j]⟩ := by
  induction stops with
  | nil =>
    intro deps sq row h
    simp [tripRows] at h
  | cons s ss ih =>
    intro deps sq row h
    cases deps with
    | nil => simp [tripRows] at h
    | cons d ds =>
      simp only [tripRows, List.mem_cons] at h
      rcases h with h | h
      · exact ⟨0, by simp, by simp, by simpa using h⟩
      · obtain ⟨j, hj, hj2, heq⟩ := ih ds (sq + 1) row h
        refine ⟨j + 1, by simpa using Nat.succ_lt_succ hj, by simpa using Nat.succ_lt_succ hj2, ?_⟩
        rw [heq]
        have hsq : sq + 1 + j = sq + (j + 1) := by omega
        simp [List.getElem_cons_succ, hsq]

theorem routeRowsAux_get (stops : List Stop) :
    ∀ (tds : List (List Time)) (i0 m : Nat) (hm : m < tds.length) (row : STRow),
      row ∈ tripRows (i0 + m) 1 stops tds[m] → row ∈ routeRowsAux stops i0 tds := by
  intro tds
  induction tds with
  | nil =>
    intro i0 m hm row h
    exact absurd hm (Nat.not_lt_zero m)
  | cons d0 rest ih =>
    intro i0 m hm row h
    unfold routeRowsAux
    apply List.mem_append.mpr
    cases m with
    | zero =>
      left
      simpa using h
    | succ m2 =>
      right
      have hm2 : m2 < rest.length := by simpa using hm
      apply ih (i0 + 1) m2 hm2
      have hi : i0 + 1 + m2 = i0 + (m2 + 1) := by omega
      rw [hi]
      simpa using h

theorem routeRowsAux_mem (stops : List Stop) :
    ∀ (tds : List (List Time)) (i0 : Nat) (row : STRow),
      row ∈ routeRowsAux stops i0 tds →
      ∃ (m : Nat) (hm : m < tds.length), row ∈ tripRows (i0 + m) 1 stops tds[m] := by
  intro tds
  induction tds with
  | nil =>
    intro i0 row h
    simp [routeRowsAux] at h
  | cons d0 rest ih =>
    intro i0 row h
    unfold routeRowsAux at h
    rcases List.mem_append.mp h with h | h
    · exact ⟨0, by simp, by simpa using h⟩
    · obtain ⟨m2, hm2, hmem⟩ := ih (i0 + 1) row h
      refine ⟨m2 + 1, by simpa using Nat.succ_lt_succ hm2, ?_⟩
      have hi : i0 + (m2 + 1) = i0 + 1 + m2 := by omega
      rw [hi]
      simpa using hmem

theorem find?_isSome_of_mem {α : Type} (q : α → Bool) (l : List α) (a : α)
    (ha : a ∈ l) (hq : q a = true) : ∃ b, l.find? q = some b := by
  induction l with
  | nil => cases ha
  | cons x xs ih =>
    by_cases hx : q x = true
    · exact ⟨x, List.find?_cons_of_pos _ hx⟩
    · rcases List.mem_cons.mp ha with h | h
      · rw [← h] at hx
        exact absurd hq hx
      · obtain ⟨b, hb⟩ := ih h
        refine ⟨b, ?_⟩
        rw [List.find?_cons_of_neg _ (by simpa using hx)]
        exact hb

theorem find?_sorted_min {α : Type} (key : α → Time) (q : α → Bool) (l : List α)
    (hs : l.Pairwise (fun u v => key u ≤ key v)) (a : α) (h : l.find? q = some a) :
    a ∈ l ∧ q a = true ∧ ∀ b ∈ l, q b = true → key a ≤ key b := by
  induction l with
  | nil => simp at h
  | cons x xs ih =>
    by_cases hx : q x = true
    · rw [List.find?_cons_of_pos _ hx] at h
      cases h
      refine ⟨List.mem_cons_self _ _, hx, ?_⟩
      intro b hb _
      rcases List.mem_cons.mp hb with hb | hb
      · rw [hb]
      · exact List.rel_of_pairwise_cons hs hb
    · rw [List.find?_cons_of_neg _ (by simpa using hx)] at h
      obtain ⟨ha, hqa, hmin⟩ := ih (List.Pairwise.of_cons hs) h
      refine ⟨List.mem_cons_of_mem x ha, hqa, ?_⟩
      intro b hb hqb
      rcases List.mem_cons.mp hb with hb | hb
      · rw [hb] at hqb
        exact absurd hqb hx
      · exact hmin b hb hqb

/-- C8: for a derived route whose trips all have strictly increasing
departure times along the trip, `route_stop_sq_map` — sort the rows by
`dep_time`, group by stop, take the first row's `stop_sequence` — returns
the `stop_sequence` of the first occurrence of the stop within the
route's ordered stop sequence, also when the stop repeats. -/
theorem route_stop_sq_map_first_occurrence (stops : List Stop)
    (tripDeps : List (List Time)) (p : Stop)
    (hmem : p ∈ stops) (hne : tripDeps ≠ [])
    (hlen : ∀ d ∈ tripDeps, d.length = stops.length)
    (hmono : ∀ d ∈ tripDeps, d.Pairwise (· < ·)) :
    route_stop_sq_map stops tripDeps p = some (firstIdx p stops + 1) := by
  have hperm := perm_sortByKey (fun row : STRow => row.dep_time) (routeRows stops tripDeps)
  have hsorted := pairwise_sortByKey (fun row : STRow => row.dep_time) (routeRows stops tripDeps)
  obtain ⟨d0, rest, rfl⟩ : ∃ d0 rest, tripDeps = d0 :: rest := by
    cases tripDeps with
    | nil => exact absurd rfl hne
    | cons d0 rest => exact ⟨d0, rest, rfl⟩
  have hf : firstIdx p stops < stops.length := firstIdx_lt p stops hmem
  have hf2 : firstIdx p stops < d0.length := by
    rw [hlen d0 (by simp)]
    exact hf
  have hget : stops[firstIdx p stops] = p := get_firstIdx p stops hmem hf
  have hrow0 : (⟨0, 1 + firstIdx p stops, stops[firstIdx p stops], d0[firstIdx p stops]⟩ : STRow)
      ∈ routeRows stops (d0 :: rest) := by
    apply routeRowsAux_get stops (d0 :: rest) 0 0 (by simp)
    simpa using tripRows_get 0 stops d0 1 (firstIdx p stops) hf hf2
  obtain ⟨row0, hfind⟩ := find?_isSome_of_mem (fun row : STRow => decide (row.stop_id = p))
    (sortByKey (fun row : STRow => row.dep_time) (routeRows stops (d0 :: rest))) _
    (hperm.mem_iff.mpr hrow0) (by simp [hget])
  obtain ⟨hmem0, hq0, hmin0⟩ := find?_sorted_min (fun row : STRow => row.dep_time)
    (fun row : STRow => decide (row.stop_id = p)) _ hsorted row0 hfind
  have hrow0mem : row0 ∈ routeRows stops (d0 :: rest) := hperm.mem_iff.mp hmem0
  obtain ⟨m, hm, hrowTrip⟩ := routeRowsAux_mem stops (d0 :: rest) 0 row0 hrow0mem
  obtain ⟨j, hj, hj2, heq⟩ := tripRows_mem (0 + m) stops ((d0 :: rest)[m]) 1 row0 hrowTrip
  have hstop : stops[j] = p := by
    rw [heq] at hq0
    simpa using hq0
  have hfle : firstIdx p stops ≤ j := firstIdx_le p stops j hj hstop
  have hjeq : j = firstIdx p stops := by
    by_contra hneq
    have hflt : firstIdx p stops < j := lt_of_le_of_ne hfle (fun h => hneq h.symm)
    have hdm : (d0 :: rest)[m] ∈ d0 :: rest := List.getElem_mem hm
    have hf2m : firstIdx p stops < ((d0 :: rest)[m]).length := by
      rw [hlen _ hdm]
      exact hf
    have hrow1 : (⟨0 + m, 1 + firstIdx p stops, stops[firstIdx p stops],
        ((d0 :: rest)[m])[firstIdx p stops]⟩ : STRow) ∈ routeRows stops (d0 :: rest) := by
      apply routeRowsAux_get stops (d0 :: rest) 0 m hm
      simpa using tripRows_get (0 + m) stops ((d0 :: rest)[m]) 1 (firstIdx p stops) hf hf2m
    have hminle := hmin0 _ (hperm.mem_iff.mpr hrow1) (by simp [hget])
    rw [heq] at hminle
    have hlt : ((d0 :: rest)[m])[firstIdx p stops] < ((d0 :: rest)[m])[j] := by
      have hp := hmono _ hdm
      exact List.pairwise_iff_getElem.mp hp _ _ hf2m hj2 hflt
    exact absurd hlt (not_lt.mpr hminle)
  unfold route_stop_sq_map
  rw [hfind]
  simp only [Option.map_some']
  rw [heq]
  simp only [hjeq]
  rw [Nat.add_comm 1 (firstIdx p stops)]

/-- Witness for C8 on a route visiting `A`, `B`, `A` (the stop repeats)
with two trips: the first occurrence (stop_sequence 1) is returned. -/
theorem route_stop_sq_map_first_occurrence_witness :
    route_stop_sq_map ["A", "B", "A"] [[100, 200, 300], [150, 250, 350]] "A" = some 1 := by
  have h := route_stop_sq_map_first_occurrence ["A", "B", "A"]
    [[100, 200, 300], [150, 250, 350]] "A" (by decide) (by decide) (by decide) (by decide)
  exact h.trans (by decide)
